import Mathlib

/-!
Verification of the connection-reconciliation engine of the
`terraform-provider-auth0-connections` provider
(`resource_application_connections.go`).

The engine (`applyConnectionState`) walks the tenant's connection list;
for each connection it reads the current `enabled_clients`
(`getConnectionClients`), rebuilds the list without the target
application, appends the application when the connection is desired,
sorts both lists in place (`sort.Strings`), and PATCHes the connection
(`updateConnectionClients`) when the sorted lists differ
(`stringSlicesEqual`).

The remote API is modelled by an environment `Env` fixing, per
connection id, the outcome of the single-connection GET (200 / non-200
status / transport or decode error) and whether the PATCH succeeds, and
by a remote state `RemoteState` mapping each connection id to its
current `enabled_clients` list.  The loop is an explicit fold threading
the remote state; besides the Go function's two return values
(`managedConnections`, error) the model records the final remote state
and a trace of the successful PATCH calls.
-/

namespace Auth0Conns

/-- Outcome of the single-connection GET in `getConnectionClients`:
an HTTP 200 (`ok`), a non-200 status (`non200`), or a transport /
decode error (`fail`, the `err != nil` branches). -/
inductive ReadMode where
  | ok : ReadMode
  | non200 : ReadMode
  | fail : ReadMode
deriving DecidableEq

/-- Behaviour of the remote API, fixed per connection id. -/
structure Env where
  readMode : String → ReadMode
  writeOk : String → Bool
  writeErrMsg : String → String

/-- Remote state: each connection id's current `enabled_clients`. -/
abbrev RemoteState := String → List String

/-- `getConnectionClients` (lines 415-445): a transport/decode error is
returned as an error; a non-200 status returns `([]string{}, nil)`;
a 200 returns the connection's `enabled_clients`. -/
def getConnectionClients (env : Env) (state : RemoteState)
    (connectionId : String) : Except String (List String) :=
  match env.readMode connectionId with
  | ReadMode.fail => Except.error "failed to make connection request"
  | ReadMode.non200 => Except.ok []
  | ReadMode.ok => Except.ok (state connectionId)

/-- Lexicographic comparison of character lists by unicode scalar value;
on ASCII data this is exactly the byte-wise order `sort.Strings` uses. -/
def strLeB : List Char → List Char → Bool
  | [], _ => true
  | _ :: _, [] => false
  | c :: cs, d :: ds =>
    if c.toNat < d.toNat then true
    else if d.toNat < c.toNat then false
    else strLeB cs ds

/-- The string order used by the model of `sort.Strings`. -/
def strLe (a b : String) : Prop := strLeB a.data b.data = true

instance : DecidableRel strLe := fun a b =>
  inferInstanceAs (Decidable (strLeB a.data b.data = true))

/-- `sort.Strings` (lines 480-481): sorts a string slice in place into
ascending lexicographic order. -/
def sortStrings (l : List String) : List String :=
  List.insertionSort strLe l

/-- `stringSlicesEqual` (lines 531-541): length check followed by an
element-wise comparison. -/
def stringSlicesEqual (a b : List String) : Bool :=
  if a.length ≠ b.length then false
  else (List.zip a b).all fun p => p.1 == p.2

/-- The `newClients` list rebuilt by the loop body (lines 464-477):
every current client other than the application, in order, with the
application appended when the connection is desired. -/
def newClientList (currentClients : List String) (applicationId : String)
    (desired : Bool) : List String :=
  currentClients.filter (fun clientId => clientId != applicationId) ++
    (if desired then [applicationId] else [])

/-- Result of one iteration of the loop body of `applyConnectionState`
for a single connection. -/
inductive StepOut where
  | skip : StepOut
  | noop : StepOut
  | wrote : List String → StepOut
  | failed : String → StepOut
deriving DecidableEq

/-- One iteration of the loop in `applyConnectionState`
(lines 457-491): read the connection's clients (an error skips the
connection), rebuild the list, sort both in place, and when the sorted
lists differ attempt the PATCH, whose payload is the (now sorted)
`newClients`. -/
def connStep (env : Env) (state : RemoteState) (applicationId : String)
    (enabledSet : String → Bool) (connectionId : String) : StepOut :=
  match getConnectionClients env state connectionId with
  | Except.error _ => StepOut.skip
  | Except.ok currentClients =>
    let newClients := newClientList currentClients applicationId
      (enabledSet connectionId)
    if stringSlicesEqual (sortStrings currentClients) (sortStrings newClients)
    then StepOut.noop
    else if env.writeOk connectionId then StepOut.wrote (sortStrings newClients)
    else StepOut.failed (env.writeErrMsg connectionId)

/-- Whether an iteration invoked `updateConnectionClients` (whether the
PATCH then succeeded or not). -/
def stepIssuesWrite : StepOut → Bool
  | StepOut.skip => false
  | StepOut.noop => false
  | StepOut.wrote _ => true
  | StepOut.failed _ => true

/-- Everything observable about a run of `applyConnectionState`: the Go
function's two return values (`managedConnections`, error), the remote
state after the run, and the trace of successful PATCH calls. -/
structure Outcome where
  managedConnections : List String
  err : Option String
  state : RemoteState
  writeLog : List (String × List String)

/-- The loop of `applyConnectionState` (lines 457-491), threading the
remote state and the `managedConnections` accumulator.  A read error
skips the connection; equal sorted lists skip the write; a successful
PATCH replaces the connection's clients with the sorted `newClients`
and records the connection as managed; a failed PATCH aborts,
returning `nil` for `managedConnections` and the wrapped error of
line 487. -/
def applyLoop (env : Env) (applicationId : String)
    (enabledSet : String → Bool) :
    List String → RemoteState → List String →
      List (String × List String) → Outcome
  | [], state, managed, log => ⟨managed, none, state, log⟩
  | connectionId :: rest, state, managed, log =>
    match connStep env state applicationId enabledSet connectionId with
    | StepOut.skip => applyLoop env applicationId enabledSet rest state managed log
    | StepOut.noop => applyLoop env applicationId enabledSet rest state managed log
    | StepOut.wrote payload =>
        applyLoop env applicationId enabledSet rest
          (Function.update state connectionId payload)
          (managed ++ [connectionId]) (log ++ [(connectionId, payload)])
    | StepOut.failed msg =>
        ⟨[], some ("failed to update connection " ++ connectionId ++ ": " ++ msg),
          state, log⟩

/-- `applyConnectionState` (lines 447-494): build the membership set
from `enabledConnectionIds` and run the loop over `allConnections`. -/
def applyConnectionState (env : Env) (state : RemoteState)
    (allConnections : List String) (applicationId : String)
    (enabledConnectionIds : List String) : Outcome :=
  applyLoop env applicationId
    (fun connId => enabledConnectionIds.contains connId)
    allConnections state [] []

/-! Concrete environments and states used to evaluate the theorems on
explicit inputs. -/

/-- Every read returns 200, every write succeeds. -/
def envOk : Env := ⟨fun _ => ReadMode.ok, fun _ => true, fun _ => "m"⟩

/-- Reads of `"c1"` return a non-200 status; all other reads return
200; every write succeeds. -/
def envN : Env :=
  ⟨fun c => if c = "c1" then ReadMode.non200 else ReadMode.ok,
    fun _ => true, fun _ => "m"⟩

/-- Reads of `"c1"` fail with a transport error; all other reads return
200; every write succeeds. -/
def envF : Env :=
  ⟨fun c => if c = "c1" then ReadMode.fail else ReadMode.ok,
    fun _ => true, fun _ => "m"⟩

/-- Every read returns 200; writes to `"c2"` fail with status 500,
all other writes succeed. -/
def envW : Env :=
  ⟨fun _ => ReadMode.ok, fun c => c != "c2",
    fun _ => "update request failed with status 500"⟩

/-- Remote state with no enabled clients anywhere. -/
def stEmpty : RemoteState := fun _ => []

/-- Remote state where every connection's list holds the duplicate
entry `["x", "x"]`. -/
def stDup : RemoteState := fun _ => ["x", "x"]

/-- Remote state where every connection's list is `["x"]`. -/
def stX : RemoteState := fun _ => ["x"]

/-! ## Order lemmas for the comparator behind `sortStrings` -/

theorem strLeB_cons_iff {x y : Char} {xs ys : List Char} :
    strLeB (x :: xs) (y :: ys) = true ↔
      x.toNat < y.toNat ∨ (x.toNat = y.toNat ∧ strLeB xs ys = true) := by
  by_cases h : x.toNat < y.toNat
  · simp [strLeB, h]
  · by_cases h' : y.toNat < x.toNat
    · simp [strLeB, h, h', Nat.le_antisymm]
      omega
    · have he : x.toNat = y.toNat := Nat.le_antisymm (Nat.le_of_not_lt h') (Nat.le_of_not_lt h)
      simp [strLeB, h, h', he]

theorem strLeB_total : ∀ a b : List Char, strLeB a b = true ∨ strLeB b a = true
  | [], _ => Or.inl rfl
  | _ :: _, [] => Or.inr rfl
  | c :: cs, d :: ds => by
    rcases Nat.lt_trichotomy c.toNat d.toNat with h | h | h
    · exact Or.inl (strLeB_cons_iff.mpr (Or.inl h))
    · rcases strLeB_total cs ds with ih | ih
      · exact Or.inl (strLeB_cons_iff.mpr (Or.inr ⟨h, ih⟩))
      · exact Or.inr (strLeB_cons_iff.mpr (Or.inr ⟨h.symm, ih⟩))
    · exact Or.inr (strLeB_cons_iff.mpr (Or.inl h))

theorem strLeB_trans : ∀ a b c : List Char,
    strLeB a b = true → strLeB b c = true → strLeB a c = true
  | [], _, _, _, _ => rfl
  | _ :: _, [], _, hab, _ => by simp [strLeB] at hab
  | _ :: _, _ :: _, [], _, hbc => by simp [strLeB] at hbc
  | x :: xs, y :: ys, z :: zs, hab, hbc => by
    rcases strLeB_cons_iff.mp hab with h₁ | ⟨h₁, r₁⟩ <;>
      rcases strLeB_cons_iff.mp hbc with h₂ | ⟨h₂, r₂⟩
    · exact strLeB_cons_iff.mpr (Or.inl (Nat.lt_trans h₁ h₂))
    · exact strLeB_cons_iff.mpr (Or.inl (h₂ ▸ h₁))
    · exact strLeB_cons_iff.mpr (Or.inl (h₁ ▸ h₂))
    · exact strLeB_cons_iff.mpr
        (Or.inr ⟨h₁.trans h₂, strLeB_trans xs ys zs r₁ r₂⟩)

theorem strLeB_antisymm : ∀ a b : List Char,
    strLeB a b = true → strLeB b a = true → a = b
  | [], [], _, _ => rfl
  | [], _ :: _, _, hba => by simp [strLeB] at hba
  | _ :: _, [], hab, _ => by simp [strLeB] at hab
  | x :: xs, y :: ys, hab, hba => by
    rcases strLeB_cons_iff.mp hab with h₁ | ⟨h₁, r₁⟩ <;>
      rcases strLeB_cons_iff.mp hba with h₂ | ⟨h₂, r₂⟩
    · exact absurd h₂ (Nat.lt_asymm h₁)
    · exact absurd h₁ (h₂ ▸ Nat.lt_irrefl _)
    · exact absurd h₂ (h₁ ▸ Nat.lt_irrefl _)
    · have hc : x = y := Char.ext (UInt32.ext h₁)
      have ht : xs = ys := strLeB_antisymm xs ys r₁ r₂
      rw [hc, ht]

instance : IsTotal String strLe := ⟨fun a b => strLeB_total a.data b.data⟩

instance : IsTrans String strLe := ⟨fun a b c => strLeB_trans a.data b.data c.data⟩

instance : IsAntisymm String strLe :=
  ⟨fun a b hab hba => by
    have h := strLeB_antisymm a.data b.data hab hba
    cases a; cases b; simp_all⟩

theorem sortStrings_perm (l : List String) : (sortStrings l).Perm l :=
  List.perm_insertionSort strLe l

theorem sortStrings_sorted (l : List String) : (sortStrings l).Sorted strLe :=
  List.sorted_insertionSort strLe l

theorem sortStrings_eq_iff {a b : List String} :
    sortStrings a = sortStrings b ↔ a.Perm b := by
  constructor
  · intro h
    exact (sortStrings_perm a).symm.trans (h ▸ sortStrings_perm b)
  · intro h
    exact List.eq_of_perm_of_sorted
      ((sortStrings_perm a).trans (h.trans (sortStrings_perm b).symm))
      (sortStrings_sorted a) (sortStrings_sorted b)

/-! ## `stringSlicesEqual` decides list equality -/

theorem stringSlicesEqual_cons {x y : String} {xs ys : List String} :
    stringSlicesEqual (x :: xs) (y :: ys) =
      ((x == y) && stringSlicesEqual xs ys) := by
  by_cases h : xs.length = ys.length
  · simp [stringSlicesEqual, h]
  · simp [stringSlicesEqual, h]

theorem stringSlicesEqual_iff : ∀ a b : List String,
    stringSlicesEqual a b = true ↔ a = b
  | [], [] => by simp [stringSlicesEqual]
  | [], _ :: _ => by simp [stringSlicesEqual]
  | _ :: _, [] => by simp [stringSlicesEqual]
  | x :: xs, y :: ys => by
    rw [stringSlicesEqual_cons]
    simp [stringSlicesEqual_iff xs ys]

/-! ## The rebuilt client list -/

theorem mem_newClientList {x applicationId : String} {cur : List String}
    {d : Bool} :
    x ∈ newClientList cur applicationId d ↔
      (x ∈ cur ∧ x ≠ applicationId) ∨ (d = true ∧ x = applicationId) := by
  cases d <;> simp [newClientList, List.mem_filter, bne_iff_ne, and_comm]

theorem count_app_newClientList (cur : List String) (applicationId : String)
    (d : Bool) :
    (newClientList cur applicationId d).count applicationId =
      if d then 1 else 0 := by
  have hz : (cur.filter
      (fun clientId => clientId != applicationId)).count applicationId = 0 := by
    refine List.count_eq_zero.mpr fun hmem => ?_
    rcases List.mem_filter.mp hmem with ⟨-, hne⟩
    exact (bne_iff_ne.mp hne) rfl
  cases d <;> simp [newClientList, List.count_append, hz]

theorem count_ne_newClientList {x applicationId : String}
    (h : x ≠ applicationId) (cur : List String) (d : Bool) :
    (newClientList cur applicationId d).count x = cur.count x := by
  have hf : ∀ l : List String,
      (l.filter (fun clientId => clientId != applicationId)).count x =
        l.count x := by
    intro l
    induction l with
    | nil => rfl
    | cons y ys ih =>
      by_cases hy : y = applicationId
      · subst hy
        simp [List.count_cons, h, ih]
      · simp [List.filter_cons, bne_iff_ne, hy, List.count_cons, ih]
  cases d <;> simp [newClientList, List.count_append, hf, h]

theorem newClientList_perm_iff {cur : List String} {applicationId : String}
    {d : Bool} :
    (newClientList cur applicationId d).Perm cur ↔
      cur.count applicationId = (if d then 1 else 0) := by
  constructor
  · intro h
    have := h.count_eq applicationId
    rw [count_app_newClientList] at this
    exact this.symm
  · intro h
    refine List.perm_iff_count.mpr fun x => ?_
    by_cases hx : x = applicationId
    · subst hx
      rw [count_app_newClientList, h]
    · exact count_ne_newClientList hx cur d

/-! ## Step lemmas: the four behaviours of one loop iteration -/

theorem getConnectionClients_cases (env : Env) (s : RemoteState)
    (c : String) :
    env.readMode c = ReadMode.fail ∨
      getConnectionClients env s c = Except.ok [] ∨
      getConnectionClients env s c = Except.ok (s c) := by
  cases h : env.readMode c
  · exact Or.inr (Or.inr (by simp [getConnectionClients, h]))
  · exact Or.inr (Or.inl (by simp [getConnectionClients, h]))
  · exact Or.inl rfl

theorem applyLoop_step_skip {env : Env} {applicationId : String}
    {eset : String → Bool} {c : String} (rest : List String)
    (s : RemoteState) (m : List String) (w : List (String × List String))
    (h : env.readMode c = ReadMode.fail) :
    applyLoop env applicationId eset (c :: rest) s m w =
      applyLoop env applicationId eset rest s m w := by
  simp [applyLoop, connStep, getConnectionClients, h]

theorem applyLoop_step_noop {env : Env} {applicationId : String}
    {eset : String → Bool} {c : String} {cur : List String}
    (rest : List String) (s : RemoteState) (m : List String)
    (w : List (String × List String))
    (hread : getConnectionClients env s c = Except.ok cur)
    (hperm : (newClientList cur applicationId (eset c)).Perm cur) :
    applyLoop env applicationId eset (c :: rest) s m w =
      applyLoop env applicationId eset rest s m w := by
  have hbool : stringSlicesEqual (sortStrings cur)
      (sortStrings (newClientList cur applicationId (eset c))) = true :=
    (stringSlicesEqual_iff _ _).mpr (sortStrings_eq_iff.mpr hperm.symm)
  simp [applyLoop, connStep, hread, hbool]

theorem applyLoop_step_wrote {env : Env} {applicationId : String}
    {eset : String → Bool} {c : String} {cur : List String}
    (rest : List String) (s : RemoteState) (m : List String)
    (w : List (String × List String))
    (hread : getConnectionClients env s c = Except.ok cur)
    (hperm : ¬ (newClientList cur applicationId (eset c)).Perm cur)
    (hw : env.writeOk c = true) :
    applyLoop env applicationId eset (c :: rest) s m w =
      applyLoop env applicationId eset rest
        (Function.update s c
          (sortStrings (newClientList cur applicationId (eset c))))
        (m ++ [c])
        (w ++ [(c, sortStrings (newClientList cur applicationId (eset c)))]) := by
  have hbool : stringSlicesEqual (sortStrings cur)
      (sortStrings (newClientList cur applicationId (eset c))) = false := by
    cases hssE : stringSlicesEqual (sortStrings cur)
        (sortStrings (newClientList cur applicationId (eset c)))
    · rfl
    · exact absurd (sortStrings_eq_iff.mp
        ((stringSlicesEqual_iff _ _).mp hssE)).symm hperm
  simp [applyLoop, connStep, hread, hbool, hw]

theorem applyLoop_step_abort {env : Env} {applicationId : String}
    {eset : String → Bool} {c : String} {cur : List String}
    (rest : List String) (s : RemoteState) (m : List String)
    (w : List (String × List String))
    (hread : getConnectionClients env s c = Except.ok cur)
    (hperm : ¬ (newClientList cur applicationId (eset c)).Perm cur)
    (hw : env.writeOk c = false) :
    applyLoop env applicationId eset (c :: rest) s m w =
      ⟨[], some ("failed to update connection " ++ c ++ ": " ++
        env.writeErrMsg c), s, w⟩ := by
  have hbool : stringSlicesEqual (sortStrings cur)
      (sortStrings (newClientList cur applicationId (eset c))) = false := by
    cases hssE : stringSlicesEqual (sortStrings cur)
        (sortStrings (newClientList cur applicationId (eset c)))
    · rfl
    · exact absurd (sortStrings_eq_iff.mp
        ((stringSlicesEqual_iff _ _).mp hssE)).symm hperm
  simp [applyLoop, connStep, hread, hbool, hw]

/-! ## Invariants of the reconciliation loop -/

theorem applyLoop_state_of_not_mem {env : Env} {applicationId : String}
    {eset : String → Bool} (l : List String) :
    ∀ (s : RemoteState) (m : List String) (w : List (String × List String))
      {c : String}, c ∉ l →
      (applyLoop env applicationId eset l s m w).state c = s c := by
  induction l with
  | nil => intro s m w c _; rfl
  | cons d rest ih =>
    intro s m w c hc
    have hcd : c ≠ d := fun h => hc (h ▸ List.mem_cons_self d rest)
    have hcr : c ∉ rest := fun h => hc (List.mem_cons_of_mem d h)
    have hok : ∀ cur, getConnectionClients env s d = Except.ok cur →
        (applyLoop env applicationId eset (d :: rest) s m w).state c = s c := by
      intro cur hread
      by_cases hperm : (newClientList cur applicationId (eset d)).Perm cur
      · rw [applyLoop_step_noop rest s m w hread hperm]
        exact ih s m w hcr
      · cases hw : env.writeOk d
        · rw [applyLoop_step_abort rest s m w hread hperm hw]
        · rw [applyLoop_step_wrote rest s m w hread hperm hw, ih _ _ _ hcr]
          exact Function.update_noteq hcd _ s
    rcases getConnectionClients_cases env s d with hfail | hread | hread
    · rw [applyLoop_step_skip rest s m w hfail]
      exact ih s m w hcr
    · exact hok _ hread
    · exact hok _ hread

theorem readMode_ne_fail_of_ok {env : Env} {s : RemoteState} {c : String}
    {cur : List String} (h : getConnectionClients env s c = Except.ok cur) :
    env.readMode c ≠ ReadMode.fail := by
  intro hf
  simp [getConnectionClients, hf] at h

theorem applyLoop_state_of_readFail {env : Env} {applicationId : String}
    {eset : String → Bool} (l : List String) :
    ∀ (s : RemoteState) (m : List String) (w : List (String × List String))
      {c : String}, env.readMode c = ReadMode.fail →
      (applyLoop env applicationId eset l s m w).state c = s c := by
  induction l with
  | nil => intro s m w c _; rfl
  | cons d rest ih =>
    intro s m w c hc
    have hok : ∀ cur, getConnectionClients env s d = Except.ok cur →
        (applyLoop env applicationId eset (d :: rest) s m w).state c = s c := by
      intro cur hread
      have hcd : c ≠ d := by
        intro h
        exact readMode_ne_fail_of_ok hread (h ▸ hc)
      by_cases hperm : (newClientList cur applicationId (eset d)).Perm cur
      · rw [applyLoop_step_noop rest s m w hread hperm]
        exact ih s m w hc
      · cases hw : env.writeOk d
        · rw [applyLoop_step_abort rest s m w hread hperm hw]
        · rw [applyLoop_step_wrote rest s m w hread hperm hw, ih _ _ _ hc]
          exact Function.update_noteq hcd _ s
    rcases getConnectionClients_cases env s d with hfail | hread | hread
    · rw [applyLoop_step_skip rest s m w hfail]
      exact ih s m w hc
    · exact hok _ hread
    · exact hok _ hread

theorem applyLoop_managed_of_err {env : Env} {applicationId : String}
    {eset : String → Bool} (l : List String) :
    ∀ (s : RemoteState) (m : List String) (w : List (String × List String))
      {msg : String},
      (applyLoop env applicationId eset l s m w).err = some msg →
      (applyLoop env applicationId eset l s m w).managedConnections = [] := by
  induction l with
  | nil => intro s m w msg h; exact absurd h (by simp [applyLoop])
  | cons d rest ih =>
    intro s m w msg h
    have hok : ∀ cur, getConnectionClients env s d = Except.ok cur →
        (applyLoop env applicationId eset (d :: rest) s m w).err = some msg →
        (applyLoop env applicationId eset (d :: rest) s m w).managedConnections
          = [] := by
      intro cur hread h
      by_cases hperm : (newClientList cur applicationId (eset d)).Perm cur
      · rw [applyLoop_step_noop rest s m w hread hperm] at h ⊢
        exact ih _ _ _ h
      · cases hw : env.writeOk d
        · rw [applyLoop_step_abort rest s m w hread hperm hw]
        · rw [applyLoop_step_wrote rest s m w hread hperm hw] at h ⊢
          exact ih _ _ _ h
    rcases getConnectionClients_cases env s d with hfail | hread | hread
    · rw [applyLoop_step_skip rest s m w hfail] at h ⊢
      exact ih _ _ _ h
    · exact hok _ hread h
    · exact hok _ hread h

theorem applyLoop_err_none_of_writeOk {env : Env} {applicationId : String}
    {eset : String → Bool} (l : List String) :
    ∀ (s : RemoteState) (m : List String) (w : List (String × List String)),
      (∀ c ∈ l, env.writeOk c = true) →
      (applyLoop env applicationId eset l s m w).err = none := by
  induction l with
  | nil => intro s m w _; rfl
  | cons d rest ih =>
    intro s m w hwall
    have hwd : env.writeOk d = true := hwall d (List.mem_cons_self d rest)
    have hwr : ∀ c ∈ rest, env.writeOk c = true :=
      fun c hc => hwall c (List.mem_cons_of_mem d hc)
    have hok : ∀ cur, getConnectionClients env s d = Except.ok cur →
        (applyLoop env applicationId eset (d :: rest) s m w).err = none := by
      intro cur hread
      by_cases hperm : (newClientList cur applicationId (eset d)).Perm cur
      · rw [applyLoop_step_noop rest s m w hread hperm]
        exact ih _ _ _ hwr
      · rw [applyLoop_step_wrote rest s m w hread hperm hwd]
        exact ih _ _ _ hwr
    rcases getConnectionClients_cases env s d with hfail | hread | hread
    · rw [applyLoop_step_skip rest s m w hfail]
      exact ih _ _ _ hwr
    · exact hok _ hread
    · exact hok _ hread

theorem applyLoop_managed_sublist {env : Env} {applicationId : String}
    {eset : String → Bool} (l : List String) :
    ∀ (s : RemoteState) (m : List String) (w : List (String × List String)),
      (applyLoop env applicationId eset l s m w).err = none →
      ∃ t, (applyLoop env applicationId eset l s m w).managedConnections
          = m ++ t ∧ t.Sublist l := by
  induction l with
  | nil => intro s m w _; exact ⟨[], by simp [applyLoop], List.nil_sublist []⟩
  | cons d rest ih =>
    intro s m w herr
    have hok : ∀ cur, getConnectionClients env s d = Except.ok cur →
        (applyLoop env applicationId eset (d :: rest) s m w).err = none →
        ∃ t, (applyLoop env applicationId eset (d :: rest) s m
            w).managedConnections = m ++ t ∧ t.Sublist (d :: rest) := by
      intro cur hread herr
      by_cases hperm : (newClientList cur applicationId (eset d)).Perm cur
      · rw [applyLoop_step_noop rest s m w hread hperm] at herr ⊢
        rcases ih _ _ _ herr with ⟨t, ht, hsub⟩
        exact ⟨t, ht, hsub.cons d⟩
      · cases hw : env.writeOk d
        · rw [applyLoop_step_abort rest s m w hread hperm hw] at herr
          exact absurd herr (by simp)
        · rw [applyLoop_step_wrote rest s m w hread hperm hw] at herr ⊢
          rcases ih _ _ _ herr with ⟨t, ht, hsub⟩
          exact ⟨d :: t, by simpa using ht, hsub.cons₂ d⟩
    rcases getConnectionClients_cases env s d with hfail | hread | hread
    · rw [applyLoop_step_skip rest s m w hfail] at herr ⊢
      rcases ih _ _ _ herr with ⟨t, ht, hsub⟩
      exact ⟨t, ht, hsub.cons d⟩
    · exact hok _ hread herr
    · exact hok _ hread herr

theorem applyLoop_writeLog_spec {env : Env} {applicationId : String}
    {eset : String → Bool} (l : List String) :
    ∀ (s : RemoteState) (m : List String) (w : List (String × List String)),
      ∃ t, (applyLoop env applicationId eset l s m w).writeLog = w ++ t ∧
        ∀ p ∈ t, p.1 ∈ l ∧ env.readMode p.1 ≠ ReadMode.fail ∧
          env.writeOk p.1 = true ∧
          ∃ cur, p.2 = sortStrings (newClientList cur applicationId (eset p.1))
            ∧ ¬ (newClientList cur applicationId (eset p.1)).Perm cur := by
  induction l with
  | nil => intro s m w; exact ⟨[], by simp [applyLoop], by simp⟩
  | cons d rest ih =>
    intro s m w
    have hok : ∀ cur, getConnectionClients env s d = Except.ok cur →
        env.readMode d ≠ ReadMode.fail →
        ∃ t, (applyLoop env applicationId eset (d :: rest) s m w).writeLog
            = w ++ t ∧
          ∀ p ∈ t, p.1 ∈ d :: rest ∧ env.readMode p.1 ≠ ReadMode.fail ∧
            env.writeOk p.1 = true ∧
            ∃ cur, p.2 = sortStrings (newClientList cur applicationId
              (eset p.1)) ∧ ¬ (newClientList cur applicationId (eset p.1)).Perm
                cur := by
      intro cur hread hnf
      by_cases hperm : (newClientList cur applicationId (eset d)).Perm cur
      · rw [applyLoop_step_noop rest s m w hread hperm]
        rcases ih _ _ _ with ⟨t, ht, hall⟩
        refine ⟨t, ht, fun p hp => ?_⟩
        rcases hall p hp with ⟨h1, h2⟩
        exact ⟨List.mem_cons_of_mem d h1, h2⟩
      · cases hw : env.writeOk d
        · rw [applyLoop_step_abort rest s m w hread hperm hw]
          exact ⟨[], by simp, by simp⟩
        · rw [applyLoop_step_wrote rest s m w hread hperm hw]
          rcases ih (Function.update s d
              (sortStrings (newClientList cur applicationId (eset d))))
              (m ++ [d])
              (w ++ [(d, sortStrings (newClientList cur applicationId
                (eset d)))]) with ⟨t, ht, hall⟩
          refine ⟨(d, sortStrings (newClientList cur applicationId (eset d)))
            :: t, by simpa using ht, fun p hp => ?_⟩
          rcases List.mem_cons.mp hp with hp | hp
          · subst hp
            exact ⟨List.mem_cons_self d rest, hnf, hw, cur, rfl, hperm⟩
          · rcases hall p hp with ⟨h1, h2⟩
            exact ⟨List.mem_cons_of_mem d h1, h2⟩
    rcases getConnectionClients_cases env s d with hfail | hread | hread
    · rw [applyLoop_step_skip rest s m w hfail]
      rcases ih s m w with ⟨t, ht, hall⟩
      refine ⟨t, ht, fun p hp => ?_⟩
      rcases hall p hp with ⟨h1, h2⟩
      exact ⟨List.mem_cons_of_mem d h1, h2⟩
    · exact hok _ hread (readMode_ne_fail_of_ok hread)
    · exact hok _ hread (readMode_ne_fail_of_ok hread)

theorem applyLoop_count_app {env : Env} {applicationId : String}
    {eset : String → Bool} (l : List String) :
    ∀ (s : RemoteState) (m : List String) (w : List (String × List String))
      {c : String}, c ∈ l → env.readMode c = ReadMode.ok →
      (applyLoop env applicationId eset l s m w).err = none →
      ((applyLoop env applicationId eset l s m w).state c).count applicationId
        = if eset c then 1 else 0 := by
  induction l with
  | nil => intro s m w c hc _ _; exact absurd hc (List.not_mem_nil c)
  | cons d rest ih =>
    intro s m w c hc hro herr
    have hok : ∀ cur, getConnectionClients env s d = Except.ok cur →
        (applyLoop env applicationId eset (d :: rest) s m w).err = none →
        ((applyLoop env applicationId eset (d :: rest) s m w).state c).count
          applicationId = if eset c then 1 else 0 := by
      intro cur hread herr
      by_cases hperm : (newClientList cur applicationId (eset d)).Perm cur
      · rw [applyLoop_step_noop rest s m w hread hperm] at herr ⊢
        by_cases hcr : c ∈ rest
        · exact ih s m w hcr hro herr
        · have hcd : c = d := by
            rcases List.mem_cons.mp hc with h | h
            · exact h
            · exact absurd h hcr
          subst hcd
          have hcur : cur = s c := by
            simp [getConnectionClients, hro] at hread
            exact hread.symm
          rw [applyLoop_state_of_not_mem rest s m w hcr]
          subst hcur
          exact newClientList_perm_iff.mp hperm
      · cases hw : env.writeOk d
        · rw [applyLoop_step_abort rest s m w hread hperm hw] at herr
          exact absurd herr (by simp)
        · rw [applyLoop_step_wrote rest s m w hread hperm hw] at herr ⊢
          by_cases hcr : c ∈ rest
          · exact ih _ _ _ hcr hro herr
          · have hcd : c = d := by
              rcases List.mem_cons.mp hc with h | h
              · exact h
              · exact absurd h hcr
            subst hcd
            rw [applyLoop_state_of_not_mem rest _ _ _ hcr,
              Function.update_same]
            rw [(sortStrings_perm (newClientList cur applicationId
              (eset c))).count_eq applicationId]
            exact count_app_newClientList cur applicationId (eset c)
    rcases getConnectionClients_cases env s d with hfail | hread | hread
    · have hcd : c ≠ d := by
        intro h
        subst h
        rw [hro] at hfail
        exact ReadMode.noConfusion hfail
      have hcr : c ∈ rest := by
        rcases List.mem_cons.mp hc with h | h
        · exact absurd h hcd
        · exact h
      rw [applyLoop_step_skip rest s m w hfail] at herr ⊢
      exact ih s m w hcr hro herr
    · exact hok _ hread herr
    · exact hok _ hread herr

theorem applyLoop_noop_run {env : Env} {applicationId : String}
    {eset : String → Bool} (l : List String) :
    ∀ (s : RemoteState) (m : List String) (w : List (String × List String)),
      (∀ c ∈ l, env.readMode c = ReadMode.ok ∧
        (s c).count applicationId = (if eset c then 1 else 0)) →
      applyLoop env applicationId eset l s m w = ⟨m, none, s, w⟩ := by
  induction l with
  | nil => intro s m w _; rfl
  | cons d rest ih =>
    intro s m w hall
    rcases hall d (List.mem_cons_self d rest) with ⟨hro, hcount⟩
    have hread : getConnectionClients env s d = Except.ok (s d) := by
      simp [getConnectionClients, hro]
    have hperm : (newClientList (s d) applicationId (eset d)).Perm (s d) :=
      newClientList_perm_iff.mpr hcount
    rw [applyLoop_step_noop rest s m w hread hperm]
    exact ih s m w fun c hc => hall c (List.mem_cons_of_mem d hc)

theorem applyLoop_congr_eset {env : Env} {applicationId : String}
    {eset₁ eset₂ : String → Bool} (l : List String) :
    ∀ (s : RemoteState) (m : List String) (w : List (String × List String)),
      (∀ c ∈ l, eset₁ c = eset₂ c) →
      applyLoop env applicationId eset₁ l s m w =
        applyLoop env applicationId eset₂ l s m w := by
  induction l with
  | nil => intro s m w _; rfl
  | cons d rest ih =>
    intro s m w hall
    have hd : eset₁ d = eset₂ d := hall d (List.mem_cons_self d rest)
    have hrest : ∀ c ∈ rest, eset₁ c = eset₂ c :=
      fun c hc => hall c (List.mem_cons_of_mem d hc)
    have hstep : connStep env s applicationId eset₁ d =
        connStep env s applicationId eset₂ d := by
      simp [connStep, hd]
    simp only [applyLoop, hstep]
    cases h : connStep env s applicationId eset₂ d with
    | skip => exact ih _ _ _ hrest
    | noop => exact ih _ _ _ hrest
    | wrote payload => exact ih _ _ _ hrest
    | failed msg => rfl

theorem applyLoop_append {env : Env} {applicationId : String}
    {eset : String → Bool} (l₁ : List String) :
    ∀ (l₂ : List String) (s : RemoteState) (m : List String)
      (w : List (String × List String)),
      applyLoop env applicationId eset (l₁ ++ l₂) s m w =
        (if (applyLoop env applicationId eset l₁ s m w).err = none
         then applyLoop env applicationId eset l₂
            (applyLoop env applicationId eset l₁ s m w).state
            (applyLoop env applicationId eset l₁ s m w).managedConnections
            (applyLoop env applicationId eset l₁ s m w).writeLog
         else applyLoop env applicationId eset l₁ s m w) := by
  induction l₁ with
  | nil => intro l₂ s m w; simp [applyLoop]
  | cons d rest ih =>
    intro l₂ s m w
    simp only [List.cons_append, applyLoop]
    cases h : connStep env s applicationId eset d with
    | skip => exact ih l₂ _ _ _
    | noop => exact ih l₂ _ _ _
    | wrote payload => exact ih l₂ _ _ _
    | failed msg => simp

theorem applyLoop_other_mem {env : Env} {applicationId : String}
    {eset : String → Bool} (l : List String) :
    ∀ (s : RemoteState) (m : List String) (w : List (String × List String))
      {c other : String}, other ≠ applicationId →
      env.readMode c = ReadMode.ok →
      (other ∈ (applyLoop env applicationId eset l s m w).state c ↔
        other ∈ s c) := by
  induction l with
  | nil => intro s m w c other _ _; exact Iff.rfl
  | cons d rest ih =>
    intro s m w c other hne hro
    have hok : ∀ cur, getConnectionClients env s d = Except.ok cur →
        (other ∈ (applyLoop env applicationId eset (d :: rest) s m w).state c ↔
          other ∈ s c) := by
      intro cur hread
      by_cases hperm : (newClientList cur applicationId (eset d)).Perm cur
      · rw [applyLoop_step_noop rest s m w hread hperm]
        exact ih s m w hne hro
      · cases hw : env.writeOk d
        · rw [applyLoop_step_abort rest s m w hread hperm hw]
        · rw [applyLoop_step_wrote rest s m w hread hperm hw]
          rw [ih _ _ _ hne hro]
          by_cases hcd : c = d
          · subst hcd
            have hcur : cur = s c := by
              simp [getConnectionClients, hro] at hread
              exact hread.symm
            subst hcur
            rw [Function.update_same]
            rw [(sortStrings_perm (newClientList (s c) applicationId
              (eset c))).mem_iff, mem_newClientList]
            constructor
            · intro h
              rcases h with ⟨h, -⟩ | ⟨-, h⟩
              · exact h
              · exact absurd h hne
            · intro h
              exact Or.inl ⟨h, hne⟩
          · rw [Function.update_noteq hcd _ s]
    rcases getConnectionClients_cases env s d with hfail | hread | hread
    · rw [applyLoop_step_skip rest s m w hfail]
      exact ih s m w hne hro
    · exact hok _ hread
    · exact hok _ hread

/-! ## Claim theorems -/

/-- C1.  Membership correctness of reconciliation: for every connection
`c` in the tenant's connection list, assuming every per-connection read
returns 200 and every write succeeds, after `applyConnectionState` runs
for application `applicationId` with desired set `want`, the
application is a member of `c`'s `enabled_clients` if and only if `c`
is in `want`. -/
theorem membership_correct (env : Env) (s : RemoteState)
    (allConnections : List String) (applicationId : String)
    (want : List String) (c : String)
    (hr : ∀ c' ∈ allConnections, env.readMode c' = ReadMode.ok)
    (hw : ∀ c' ∈ allConnections, env.writeOk c' = true)
    (hc : c ∈ allConnections) :
    (applicationId ∈
        (applyConnectionState env s allConnections applicationId want).state c
      ↔ c ∈ want) := by
  unfold applyConnectionState
  have herr : (applyLoop env applicationId
      (fun connId => want.contains connId) allConnections s [] []).err
        = none :=
    applyLoop_err_none_of_writeOk allConnections s [] [] hw
  have hcount := applyLoop_count_app allConnections s [] [] hc (hr c hc) herr
  by_cases hcw : c ∈ want
  · have hb : want.contains c = true := by simpa using hcw
    have hone : ((applyLoop env applicationId
        (fun connId => want.contains connId) allConnections s [] []).state
          c).count applicationId = 1 := by
      rw [hcount, hb]
      rfl
    exact ⟨fun _ => hcw, fun _ => List.count_pos_iff.mp (by omega)⟩
  · have hb : want.contains c = false := by
      cases h : want.contains c
      · rfl
      · exact absurd (by simpa using h) hcw
    have hzero : ((applyLoop env applicationId
        (fun connId => want.contains connId) allConnections s [] []).state
          c).count applicationId = 0 := by
      rw [hcount, hb]
      rfl
    exact ⟨fun hmem => absurd hmem (List.count_eq_zero.mp hzero),
      fun h => absurd h hcw⟩

/-- Witness for C1 on a concrete input: with one connection `"c1"`
holding `["x"]` and desired set `["c1"]`, the application ends up
enabled on `"c1"`. -/
theorem membership_correct_witness :
    ("app" ∈
        (applyConnectionState envOk stX ["c1"] "app" ["c1"]).state "c1"
      ↔ "c1" ∈ ["c1"]) :=
  membership_correct envOk stX ["c1"] "app" ["c1"] "c1"
    (by decide) (by decide) (by decide)

/-- C2.  Non-interference: for every application ID `other` distinct
from the target application and every connection `c` whose read
returns 200, `other` is a member of `c`'s `enabled_clients` after the
reconciliation call if and only if it was a member before. -/
theorem non_interference (env : Env) (s : RemoteState)
    (allConnections : List String) (applicationId : String)
    (want : List String) (other c : String)
    (hne : other ≠ applicationId)
    (hr : env.readMode c = ReadMode.ok) :
    (other ∈
        (applyConnectionState env s allConnections applicationId want).state c
      ↔ other ∈ s c) := by
  unfold applyConnectionState
  exact applyLoop_other_mem allConnections s [] [] hne hr

/-- Witness for C2 on a concrete input: the pre-existing client `"x"`
of `"c1"` is still enabled after reconciling `"app"`. -/
theorem non_interference_witness :
    ("x" ∈ (applyConnectionState envOk stX ["c1"] "app" ["c1"]).state "c1"
      ↔ "x" ∈ stX "c1") :=
  non_interference envOk stX ["c1"] "app" ["c1"] "x" "c1"
    (by decide) (by decide)

/-- Counterexample for C3 as stated: with a single connection `"c1"`
whose read returns a non-200 status, reconciling with `want = ["c1"]`
succeeds and writes `["app"]`, yet a second identical run — with no
intervening remote change — writes again and reports `"c1"` as managed
again, so the second call does not issue zero writes. -/
theorem idempotence_counterexample :
    (applyConnectionState envN stEmpty ["c1"] "app" ["c1"]).err = none ∧
    (applyConnectionState envN
        (applyConnectionState envN stEmpty ["c1"] "app" ["c1"]).state
        ["c1"] "app" ["c1"]).writeLog = [("c1", ["app"])] ∧
    (applyConnectionState envN
        (applyConnectionState envN stEmpty ["c1"] "app" ["c1"]).state
        ["c1"] "app" ["c1"]).managedConnections = ["c1"] := by
  decide

/-- C3 amended: when additionally every per-connection read returns
200, running `applyConnectionState` a second time immediately after a
successful first run with the same application and desired set, with no
intervening remote changes, issues zero writes and returns an empty
managed-connections list. -/
theorem idempotence_of_reads_ok (env : Env) (s : RemoteState)
    (allConnections : List String) (applicationId : String)
    (want : List String)
    (hr : ∀ c ∈ allConnections, env.readMode c = ReadMode.ok)
    (h1 : (applyConnectionState env s allConnections applicationId want).err
        = none) :
    (applyConnectionState env
        (applyConnectionState env s allConnections applicationId want).state
        allConnections applicationId want).writeLog = [] ∧
    (applyConnectionState env
        (applyConnectionState env s allConnections applicationId want).state
        allConnections applicationId want).managedConnections = [] := by
  unfold applyConnectionState at h1 ⊢
  have hcond : ∀ c ∈ allConnections, env.readMode c = ReadMode.ok ∧
      ((applyLoop env applicationId (fun connId => want.contains connId)
          allConnections s [] []).state c).count applicationId
        = (if want.contains c then 1 else 0) :=
    fun c hc => ⟨hr c hc,
      applyLoop_count_app allConnections s [] [] hc (hr c hc) h1⟩
  rw [applyLoop_noop_run allConnections _ [] [] hcond]
  exact ⟨rfl, rfl⟩

/-- Witness for the amended C3 on a concrete input: after a successful
run over `["c1"]` with all reads returning 200, the second run issues
no writes and reports nothing managed. -/
theorem idempotence_of_reads_ok_witness :
    (applyConnectionState envOk
        (applyConnectionState envOk stEmpty ["c1"] "app" ["c1"]).state
        ["c1"] "app" ["c1"]).writeLog = [] ∧
    (applyConnectionState envOk
        (applyConnectionState envOk stEmpty ["c1"] "app" ["c1"]).state
        ["c1"] "app" ["c1"]).managedConnections = [] :=
  idempotence_of_reads_ok envOk stEmpty ["c1"] "app" ["c1"]
    (by decide) (by decide)

/-- Counterexample for C4 as stated: with connection `"c1"` currently
holding `["x"]` and `"app"` desired there, the rebuilt list in original
order with the application appended last is `["x", "app"]`, but the
write carries `["app", "x"]` — the sorted sequence.  `sort.Strings`
sorts `newClients` in place before the comparison, so the persisted
value is the sorted list, not the unsorted rebuilt one. -/
theorem unsorted_write_counterexample :
    (applyConnectionState envOk stX ["c1"] "app" ["c1"]).writeLog
        = [("c1", ["app", "x"])] ∧
    newClientList (stX "c1") "app" true = ["x", "app"] ∧
    (["app", "x"] : List String) ≠ ["x", "app"] := by
  decide

/-- C4 amended: when change detection finds the lists unequal, the
write issued by the reconciliation engine carries the sorted rebuilt
list (`sort.Strings` sorts `newClients` in place before the
change-detection comparison, so the sorted sequence is also the value
persisted): every written payload is sorted and is the image under
`sortStrings` of a rebuilt survivors-plus-application list. -/
theorem writes_carry_sorted_list (env : Env) (s : RemoteState)
    (allConnections : List String) (applicationId : String)
    (want : List String) (p : String × List String)
    (hp : p ∈ (applyConnectionState env s allConnections applicationId
        want).writeLog) :
    p.2.Sorted strLe ∧
      ∃ cur, p.2 = sortStrings (newClientList cur applicationId
        (want.contains p.1)) := by
  unfold applyConnectionState at hp
  rcases applyLoop_writeLog_spec allConnections s [] [] with ⟨t, ht, hall⟩
  rw [ht] at hp
  rw [List.nil_append] at hp
  rcases hall p hp with ⟨-, -, -, cur, hpay, -⟩
  exact ⟨hpay ▸ sortStrings_sorted _, cur, hpay⟩

/-- Witness for the amended C4 on a concrete input: the payload written
to `"c1"` is sorted and is the sorted image of a rebuilt list. -/
theorem writes_carry_sorted_list_witness :
    (("c1", ["app", "x"]) : String × List String).2.Sorted strLe ∧
      ∃ cur, (("c1", ["app", "x"]) : String × List String).2 =
        sortStrings (newClientList cur "app"
          ((["c1"] : List String).contains
            (("c1", ["app", "x"]) : String × List String).1)) :=
  writes_carry_sorted_list envOk stX ["c1"] "app" ["c1"]
    ("c1", ["app", "x"]) (by decide)

/-- Counterexample for C5 as stated: connection `"c1"`'s read returns a
non-success HTTP status (non-200), `"app"` is desired there, and the
reconciliation loop nevertheless issues a write to `"c1"` — a non-200
read does not exclude the connection from writes. -/
theorem unreadable_write_counterexample :
    envN.readMode "c1" = ReadMode.non200 ∧
    (applyConnectionState envN stEmpty ["c1"] "app" ["c1"]).writeLog
        = [("c1", ["app"])] := by
  decide

/-- C5 amended: a connection whose read returns a Go error (transport
or decode failure) is skipped — no write is ever issued to it and its
remote state is unchanged, regardless of desired membership; a non-200
read response instead yields an empty client list and a nil error
rather than aborting the whole reconciliation, after which the loop
proceeds and may well write that connection. -/
theorem read_error_semantics (env : Env) (s : RemoteState)
    (allConnections : List String) (applicationId : String)
    (want : List String) (c : String) :
    (env.readMode c = ReadMode.fail →
      (∀ p ∈ (applyConnectionState env s allConnections applicationId
          want).writeLog, p.1 ≠ c) ∧
      (applyConnectionState env s allConnections applicationId
          want).state c = s c) ∧
    (env.readMode c = ReadMode.non200 →
      getConnectionClients env s c = Except.ok []) := by
  constructor
  · intro hf
    constructor
    · intro p hp
      unfold applyConnectionState at hp
      rcases applyLoop_writeLog_spec allConnections s [] [] with ⟨t, ht, hall⟩
      rw [ht] at hp
      rw [List.nil_append] at hp
      rcases hall p hp with ⟨-, hnf, -⟩
      intro he
      exact hnf (he ▸ hf)
    · exact applyLoop_state_of_readFail allConnections s [] [] hf
  · intro hn
    simp [getConnectionClients, hn]

/-- Witness for the amended C5 on a concrete input: `"c1"`'s read fails
with a transport error while `"app"` is desired there, and no write
touches `"c1"`; its remote list is unchanged. -/
theorem read_error_semantics_witness :
    (∀ p ∈ (applyConnectionState envF stX ["c1"] "app" ["c1"]).writeLog,
      p.1 ≠ "c1") ∧
    (applyConnectionState envF stX ["c1"] "app" ["c1"]).state "c1"
      = stX "c1" :=
  (read_error_semantics envF stX ["c1"] "app" ["c1"] "c1").1 (by decide)

/-- C6.  Minimal writes: for a connection whose read step returned the
client list `cur`, the loop body of `applyConnectionState` invokes
`updateConnectionClients` if and only if the rebuilt list is not a
permutation of `cur` — i.e. exactly when the multisets differ, the
comparison being performed on the two sorted lists. -/
theorem write_iff_multiset_changed (env : Env) (s : RemoteState)
    (applicationId : String) (eset : String → Bool) (c : String)
    (cur : List String)
    (hread : getConnectionClients env s c = Except.ok cur) :
    stepIssuesWrite (connStep env s applicationId eset c) = true ↔
      ¬ (newClientList cur applicationId (eset c)).Perm cur := by
  by_cases hperm : (newClientList cur applicationId (eset c)).Perm cur
  · have hbool : stringSlicesEqual (sortStrings cur)
        (sortStrings (newClientList cur applicationId (eset c))) = true :=
      (stringSlicesEqual_iff _ _).mpr (sortStrings_eq_iff.mpr hperm.symm)
    simp [connStep, hread, hbool, stepIssuesWrite, hperm]
  · have hbool : stringSlicesEqual (sortStrings cur)
        (sortStrings (newClientList cur applicationId (eset c))) = false := by
      cases hssE : stringSlicesEqual (sortStrings cur)
          (sortStrings (newClientList cur applicationId (eset c)))
      · rfl
      · exact absurd (sortStrings_eq_iff.mp
          ((stringSlicesEqual_iff _ _).mp hssE)).symm hperm
    cases hw : env.writeOk c <;>
      simp [connStep, hread, hbool, hw, stepIssuesWrite, hperm]

/-- Witness for C6 on a concrete input: `"c1"` holds `["x"]`, the
rebuilt list `["x", "app"]` is not a permutation of it, and the step
issues a write. -/
theorem write_iff_multiset_changed_witness :
    stepIssuesWrite (connStep envOk stX "app"
        (fun connId => (["c1"] : List String).contains connId) "c1") = true ↔
      ¬ (newClientList (stX "c1") "app"
        ((fun connId => (["c1"] : List String).contains connId) "c1")).Perm
          (stX "c1") :=
  write_iff_multiset_changed envOk stX "app"
    (fun connId => (["c1"] : List String).contains connId) "c1" (stX "c1")
    rfl

/-- Counterexample for C7 as stated: connection `"c1"`'s pre-existing
list is `["x", "x"]` and `"app"` is desired there; the written
enabled-clients list is `["app", "x", "x"]`, which contains the
application ID `"x"` twice — duplicates of other applications from the
remote list are not removed. -/
theorem no_duplicates_counterexample :
    (applyConnectionState envOk stDup ["c1"] "app" ["c1"]).writeLog
        = [("c1", ["app", "x", "x"])] ∧
    ¬ (["app", "x", "x"] : List String).Nodup := by
  decide

/-- C7 amended: for every connection written by a reconciliation call,
the enabled-clients list sent in the write never contains the *target*
application ID more than once, even when the connection's pre-existing
list read from the remote API contains it several times; duplicates of
*other* application IDs present in the pre-existing list are preserved
in the write rather than deduplicated. -/
theorem app_written_at_most_once (env : Env) (s : RemoteState)
    (allConnections : List String) (applicationId : String)
    (want : List String) (p : String × List String)
    (hp : p ∈ (applyConnectionState env s allConnections applicationId
        want).writeLog) :
    p.2.count applicationId ≤ 1 := by
  unfold applyConnectionState at hp
  rcases applyLoop_writeLog_spec allConnections s [] [] with ⟨t, ht, hall⟩
  rw [ht] at hp
  rw [List.nil_append] at hp
  rcases hall p hp with ⟨-, -, -, cur, hpay, -⟩
  rw [hpay, (sortStrings_perm (newClientList cur applicationId
    (want.contains p.1))).count_eq applicationId,
    count_app_newClientList]
  cases want.contains p.1 <;> simp

/-- Witness for the amended C7 on a concrete input: the payload written
to `"c1"` from the duplicated remote list contains `"app"` once. -/
theorem app_written_at_most_once_witness :
    (("c1", ["app", "x", "x"]) : String × List String).2.count "app" ≤ 1 :=
  app_written_at_most_once envOk stDup ["c1"] "app" ["c1"]
    ("c1", ["app", "x", "x"]) (by decide)

/-- C8.  Write-failure semantics: if the run over the listing segment
`pre` succeeds and the PATCH for the next connection `c` fails, the run
over `pre ++ c :: post` stops at `c`: it returns the error of line 487,
whose message embeds `c`'s connection ID, the remote state and write
trace are exactly those after `pre` (earlier writes remain applied, no
rollback), and no connection of `post` is read or written. -/
theorem write_failure_aborts (env : Env) (s : RemoteState)
    (pre post : List String) (c : String) (applicationId : String)
    (want : List String) (msg : String)
    (h1 : (applyConnectionState env s pre applicationId want).err = none)
    (h2 : connStep env
        (applyConnectionState env s pre applicationId want).state
        applicationId (fun connId => want.contains connId) c
        = StepOut.failed msg) :
    applyConnectionState env s (pre ++ c :: post) applicationId want =
      ⟨[], some ("failed to update connection " ++ c ++ ": " ++ msg),
        (applyConnectionState env s pre applicationId want).state,
        (applyConnectionState env s pre applicationId want).writeLog⟩ := by
  unfold applyConnectionState at h1 h2 ⊢
  rw [applyLoop_append pre (c :: post) s [] [], if_pos h1]
  simp only [applyLoop, h2]

/-- Witness for C8 on a concrete input: after `"c1"` is successfully
written, the failing PATCH on `"c2"` aborts the run with an error
naming `"c2"`, keeps `"c1"`'s write, and never touches `"c3"`. -/
theorem write_failure_aborts_witness :
    applyConnectionState envW stEmpty (["c1"] ++ "c2" :: ["c3"]) "app"
        ["c1", "c2", "c3"] =
      ⟨[], some ("failed to update connection " ++ "c2" ++ ": " ++
          "update request failed with status 500"),
        (applyConnectionState envW stEmpty ["c1"] "app"
          ["c1", "c2", "c3"]).state,
        (applyConnectionState envW stEmpty ["c1"] "app"
          ["c1", "c2", "c3"]).writeLog⟩ :=
  write_failure_aborts envW stEmpty ["c1"] ["c3"] "c2" "app"
    ["c1", "c2", "c3"] "update request failed with status 500"
    (by decide) (by decide)

/-- C10.  Desired connection IDs absent from the fetched connection
list are silently ignored: the run is unchanged when `want` is
restricted to the fetched list, connections outside the list keep their
state and receive no write, and the returned managed list is a
subsequence of the fetched list (without duplicates whenever the
fetched list has none). -/
theorem absent_desired_ignored (env : Env) (s : RemoteState)
    (allConnections : List String) (applicationId : String)
    (want : List String) :
    applyConnectionState env s allConnections applicationId want =
      applyConnectionState env s allConnections applicationId
        (want.filter fun x => allConnections.contains x) ∧
    (applyConnectionState env s allConnections applicationId
        want).managedConnections.Sublist allConnections ∧
    (allConnections.Nodup →
      (applyConnectionState env s allConnections applicationId
        want).managedConnections.Nodup) ∧
    (∀ p ∈ (applyConnectionState env s allConnections applicationId
        want).writeLog, p.1 ∈ allConnections) ∧
    (∀ c, c ∉ allConnections →
      (applyConnectionState env s allConnections applicationId
        want).state c = s c) := by
  have hbool : ∀ a b : Bool, (a = true ↔ b = true) → a = b := by decide
  have hsub : (applyConnectionState env s allConnections applicationId
      want).managedConnections.Sublist allConnections := by
    unfold applyConnectionState
    cases herr : (applyLoop env applicationId
        (fun connId => want.contains connId) allConnections s [] []).err with
    | none =>
      rcases applyLoop_managed_sublist allConnections s [] [] herr with
        ⟨t, ht, hs⟩
      rw [ht, List.nil_append]
      exact hs
    | some msg =>
      rw [applyLoop_managed_of_err allConnections s [] [] herr]
      exact List.nil_sublist allConnections
  refine ⟨?_, hsub, fun hnd => hnd.sublist hsub, ?_, ?_⟩
  · unfold applyConnectionState
    refine applyLoop_congr_eset allConnections s [] [] fun c hc => ?_
    refine hbool _ _ ?_
    have hg : allConnections.contains c = true := by simpa using hc
    constructor
    · intro h
      have hcw : c ∈ want := by simpa using h
      have : c ∈ want.filter fun x => allConnections.contains x :=
        List.mem_filter.mpr ⟨hcw, hg⟩
      simpa using this
    · intro h
      have : c ∈ want.filter fun x => allConnections.contains x := by
        simpa using h
      have hcw : c ∈ want := (List.mem_filter.mp this).1
      simpa using hcw
  · intro p hp
    unfold applyConnectionState at hp
    rcases applyLoop_writeLog_spec allConnections s [] [] with ⟨t, ht, hall⟩
    rw [ht] at hp
    rw [List.nil_append] at hp
    exact (hall p hp).1
  · intro c hc
    unfold applyConnectionState
    exact applyLoop_state_of_not_mem allConnections s [] [] hc

/-- Witness for C10 on a concrete input: the desired ID `"zzz"` is not
among the fetched connections `["c1"]`; the run equals the run with
`"zzz"` filtered away, the managed list is a subsequence of `["c1"]`,
and `"zzz"` keeps its state and receives no write. -/
theorem absent_desired_ignored_witness :
    applyConnectionState envOk stEmpty ["c1"] "app" ["c1", "zzz"] =
      applyConnectionState envOk stEmpty ["c1"] "app"
        ((["c1", "zzz"] : List String).filter fun x =>
          (["c1"] : List String).contains x) ∧
    (applyConnectionState envOk stEmpty ["c1"] "app"
        ["c1", "zzz"]).managedConnections.Sublist ["c1"] ∧
    ((["c1"] : List String).Nodup →
      (applyConnectionState envOk stEmpty ["c1"] "app"
        ["c1", "zzz"]).managedConnections.Nodup) ∧
    (∀ p ∈ (applyConnectionState envOk stEmpty ["c1"] "app"
        ["c1", "zzz"]).writeLog, p.1 ∈ ["c1"]) ∧
    (∀ c, c ∉ ["c1"] →
      (applyConnectionState envOk stEmpty ["c1"] "app"
        ["c1", "zzz"]).state c = stEmpty c) :=
  absent_desired_ignored envOk stEmpty ["c1"] "app" ["c1", "zzz"]

/-- C9.  When `applyConnectionState` aborts on a write failure, the
managed-connections value returned alongside the error is `nil`:
connections successfully written before the failure are not reported
to the caller. -/
theorem error_returns_nil_managed (env : Env) (s : RemoteState)
    (allConnections : List String) (applicationId : String)
    (want : List String) (msg : String)
    (h : (applyConnectionState env s allConnections applicationId want).err
        = some msg) :
    (applyConnectionState env s allConnections applicationId
        want).managedConnections = [] := by
  unfold applyConnectionState at h ⊢
  exact applyLoop_managed_of_err allConnections s [] [] h

/-- Witness for C9 on a concrete input: the write to `"c2"` fails after
`"c1"` was successfully written (its PATCH is in the write trace), and
the returned managed list is nevertheless empty. -/
theorem error_returns_nil_managed_witness :
    (applyConnectionState envW stEmpty ["c1", "c2", "c3"] "app"
        ["c1", "c2", "c3"]).managedConnections = [] :=
  error_returns_nil_managed envW stEmpty ["c1", "c2", "c3"] "app"
    ["c1", "c2", "c3"]
    "failed to update connection c2: update request failed with status 500"
    (by decide)

end Auth0Conns
